import Mathlib

/-!
Verification of the expresso arithmetic-expression evaluator (`cocoa` crate):
a shallow embedding of the tokenizer (`src/lexer.rs`), the token/binding-power
model (`src/token.rs`), the Pratt parser/evaluator (`src/parser.rs`) and the
factorial helper (`src/math.rs`).

Modelling conventions:
* Rust `f64` values are embedded as `ℚ`.  Every numeric claim below exercises
  only values and operations on which IEEE-754 double arithmetic is exact
  (small integers, halves), so the rational model agrees with the source.
  `f64::is_sign_negative` is modelled as `· < 0` (they agree away from
  `-0.0`/NaN, which `ℚ` does not represent).
* `FuncKind::eval` applies transcendental `f64` functions (`sin`, `exp`, ...)
  that have no exact counterpart on `ℚ`; the evaluator is therefore passed to
  `parse` as an explicit parameter `fev`, and theorems quantify over it.
* The parser's `Peekable<Iterator>` state is explicit: `parse` takes the token
  list and returns the value together with the unconsumed remainder.
  Recursion is driven by fuel; `2 * length + 2` strictly exceeds the call
  depth reachable on the inputs of every theorem below.
-/

namespace Cocoa

/-- All operators that expresso supports (`OpKind` in `src/token.rs`). -/
inductive OpKind where
  | Plus
  | Minus
  | Star
  | Slash
  | Modulo
  | Caret
  | Factorial
deriving DecidableEq

/-- All functions that expresso supports (`FuncKind` in `src/token.rs`). -/
inductive FuncKind where
  | Sin
  | Cos
  | Tan
  | Asin
  | Acos
  | Atan
  | Deg
  | Rad
  | Exp
  | Ln
  | Log
  | Sqrt
deriving DecidableEq

/-- A valid token expresso understands (`Token` in `src/token.rs`);
numbers are carried as `ℚ` in place of `f64`. -/
inductive Token where
  | Op (o : OpKind)
  | Func (f : FuncKind)
  | Number (n : ℚ)
  | LParen
  | RParen
deriving DecidableEq

/-- Binding power of an operator (`impl Bindable for OpKind` in
`src/token.rs`). -/
def OpKind.bp : OpKind → Nat
  | .Plus | .Minus => 5
  | .Star | .Slash => 10
  | .Modulo => 15
  | .Caret => 25
  | .Factorial => 30

/-- Binding power of a function (`impl Bindable for FuncKind` in
`src/token.rs`): all functions share the maximal binding power 35. -/
def FuncKind.bp : FuncKind → Nat
  | _ => 35

/-- Factorial on unsigned 64-bit integers (`ufactorial` in `src/math.rs`):
`0! = 1`, otherwise `n * ufactorial (n - 1)`, each product wrapping
modulo `2 ^ 64` as the `u64` multiplication does. -/
def ufactorial (n : Nat) : Nat :=
  if n = 0 then 1 else (n * ufactorial (n - 1)) % 2 ^ 64

/-- Truncation toward zero, as `f64::trunc` used by the `%` operator and
`f64::fract`: floor for non-negative arguments, ceiling for negative ones. -/
def qtrunc (q : ℚ) : ℤ :=
  if 0 ≤ q then ⌊q⌋ else ⌈q⌉

/-- Fractional part (`f64::fract`): `self - self.trunc()`. -/
def fract (q : ℚ) : ℚ :=
  q - qtrunc q

/-- The Rust `%` operator on floats: the remainder of truncated division,
`x - y * trunc (x / y)`, whose sign follows the dividend. -/
def remTrunc (x y : ℚ) : ℚ :=
  x - y * qtrunc (x / y)

/-- Euclidean remainder (`f64::rem_euclid`): take the truncated remainder
`r = x % y` and add `|y|` when `r` is negative.  Modelling boundary: the
source's `r + rhs.abs()` is a rounded `f64` addition while this `ℚ` sum is
exact (for `r` tiny against `|y|` the source can round up to exactly `|y|`),
so for general operands only properties preserved by monotone rounding
(non-negativity, being at most `|y|`) are claimed of the program; exact
values are claimed only at inputs where the addition is exact in `f64`,
such as small integers. -/
def rem_euclid (x y : ℚ) : ℚ :=
  if remTrunc x y < 0 then remTrunc x y + |y| else remTrunc x y

/-- Exponentiation (`f64::powf`) restricted to the exact fragment the
evaluator's claims exercise: for an integer exponent `y` this is the exact
power `x ^ y.num`; for a non-integer exponent the true `f64` result is
irrational and outside the rational model (the value 0 here is never relied
upon by any theorem). -/
def powf (x y : ℚ) : ℚ :=
  if y.den = 1 then x ^ y.num else 0

/-- The Rust cast `lhs as u64`: truncate toward zero and saturate at
`2 ^ 64 - 1`; the parser only applies it to non-negative integral values. -/
def toU64 (q : ℚ) : Nat :=
  min (Int.toNat (qtrunc q)) (2 ^ 64 - 1)

/-- Combination step of the parser's main loop (`src/parser.rs` lines
139-148): how an infix operator merges `lhs` and `rhs`.  `Factorial` never
reaches this match (it is handled in the postfix branch). -/
def applyOp (o : OpKind) (lhs rhs : ℚ) : ℚ :=
  match o with
  | .Plus => lhs + rhs
  | .Minus => lhs - rhs
  | .Star => lhs * rhs
  | .Slash => lhs / rhs
  | .Modulo => rem_euclid lhs rhs
  | .Caret => powf lhs rhs
  | .Factorial => lhs

mutual

/-- The Pratt parser (`parse` in `src/parser.rs`), leading-token dispatch:
consume one token to build the initial `lhs`, then enter the main loop.
`fev` stands for `FuncKind::eval`; the returned list is the unconsumed
remainder of the token stream. -/
def parseF (fuel : Nat) (fev : FuncKind → ℚ → ℚ) (toks : List Token) (bp : Nat) :
    Except String (ℚ × List Token) :=
  if h : fuel = 0 then .error "fuel exhausted" else
    match toks with
    | [] => .error "unexpected end of statement"
    | t :: rest =>
      match t with
      | .Number n => parseLoopF (fuel - 1) fev n rest bp
      | .Func f =>
        match rest with
        | .LParen :: rest2 =>
          match parseF (fuel - 1) fev rest2 f.bp with
          | .error e => .error e
          | .ok (rhs, rest3) => parseLoopF (fuel - 1) fev (fev f rhs) rest3 bp
        | _ => .error "expected ( after function token"
      | .Op o =>
        match o with
        | .Plus | .Minus =>
          match parseF (fuel - 1) fev rest (o.bp + 15) with
          | .error e => .error e
          | .ok (rhs, rest2) =>
            parseLoopF (fuel - 1) fev (if o = .Minus then -rhs else rhs) rest2 bp
        | _ => .error "unexpected operator token"
      | .LParen =>
        match parseF (fuel - 1) fev rest 0 with
        | .error e => .error e
        | .ok (v, rest2) =>
          match rest2 with
          | .RParen :: rest3 => parseLoopF (fuel - 1) fev v rest3 bp
          | _ => .error "unmatched delimeter ("
      | .RParen => .error "unexpected token"
termination_by fuel
decreasing_by all_goals omega

/-- Main loop of `parse` (`src/parser.rs` lines 87-149): peek at the next
token; a closing parenthesis or the end of input breaks out, the postfix
`Factorial` is applied in place after its domain checks, any other operator
with binding power above `bp` consumes a right-hand side recursively and is
combined via `applyOp` (with `bp - 1` for the right-associative `Caret`). -/
def parseLoopF (fuel : Nat) (fev : FuncKind → ℚ → ℚ) (lhs : ℚ) (toks : List Token) (bp : Nat) :
    Except String (ℚ × List Token) :=
  if h : fuel = 0 then .error "fuel exhausted" else
    match toks with
    | [] => .ok (lhs, [])
    | .RParen :: _ => .ok (lhs, toks)
    | .Op o :: rest =>
      match o with
      | .Factorial =>
        if o.bp ≤ bp then .ok (lhs, toks)
        else if lhs < 0 then .error "cannot calculate factorial of negative numbers"
        else if fract lhs ≠ 0 then .error "cannot calculate factorial of non integers"
        else parseLoopF (fuel - 1) fev ((ufactorial (toU64 lhs) : ℚ)) rest bp
      | _ =>
        if o.bp ≤ bp then .ok (lhs, toks)
        else
          match (match o with
                 | .Caret => parseF (fuel - 1) fev rest (o.bp - 1)
                 | _ => parseF (fuel - 1) fev rest o.bp) with
          | .error e => .error e
          | .ok (rhs, rest2) => parseLoopF (fuel - 1) fev (applyOp o lhs rhs) rest2 bp
    | _ :: _ => .error "unexpected token"
termination_by fuel
decreasing_by all_goals omega

end

/-- Entry point corresponding to `parse(tokens, bp)`: the fuel
`2 * length + 2` strictly dominates the recursion depth on every input any
theorem below evaluates, so it never runs out there. -/
def parse (fev : FuncKind → ℚ → ℚ) (toks : List Token) (bp : Nat) : Except String (ℚ × List Token) :=
  parseF (2 * toks.length + 2) fev toks bp

/-- Function evaluator sending every application to 0; used to instantiate
`fev` in witnesses and in claims whose token lists contain no `Func` token. -/
def zeroEval : FuncKind → ℚ → ℚ :=
  fun _ _ => 0

instance : DecidableEq (Except String (ℚ × List Token)) :=
  fun a b =>
    match a, b with
    | .error e, .error e2 => decidable_of_iff (e = e2) (by simp)
    | .ok v, .ok v2 => decidable_of_iff (v = v2) (by simp)
    | .error _, .ok _ => isFalse (by simp)
    | .ok _, .error _ => isFalse (by simp)

section ParserClaims

/-- Helper evaluation for the factorial claims: the cast `5 as u64`. -/
theorem toU64_five : toU64 5 = 5 := by
  have h : Int.toNat 5 = 5 := rfl
  norm_num [toU64, qtrunc, h]

/-- Helper evaluation: the 64-bit factorial of 5. -/
theorem ufactorial_five : ufactorial 5 = 120 := by
  simp [ufactorial]

/-- Helper: the truncated remainder is strictly smaller than the divisor in
absolute value whenever the divisor is nonzero. -/
lemma remTrunc_abs_lt (x y : ℚ) (hy : y ≠ 0) : |remTrunc x y| < |y| := by
  have hd : |x / y - (qtrunc (x / y) : ℚ)| < 1 := by
    unfold qtrunc
    split_ifs with h
    · rw [abs_of_nonneg (sub_nonneg.mpr (Int.floor_le _))]
      linarith [Int.sub_one_lt_floor (x / y)]
    · rw [abs_of_nonpos (sub_nonpos.mpr (Int.le_ceil _))]
      linarith [Int.ceil_lt_add_one (x / y)]
  have hrw : remTrunc x y = y * (x / y - (qtrunc (x / y) : ℚ)) := by
    unfold remTrunc
    field_simp
  rw [hrw, abs_mul]
  calc |y| * |x / y - (qtrunc (x / y) : ℚ)| < |y| * 1 :=
        mul_lt_mul_of_pos_left hd (abs_pos.mpr hy)
    _ = |y| := mul_one _

/-- Helper: for a nonzero divisor the `ℚ` model of `rem_euclid` is
non-negative and at most `|y|`.  Both bounds transfer to the `f64` source:
the only inexact step there is the final addition, and rounding to nearest
is monotone, so it keeps a positive exact sum non-negative and cannot carry
an exact sum below `|y|` past `|y|`. -/
lemma rem_euclid_nonneg_le (x y : ℚ) (hy : y ≠ 0) :
    0 ≤ rem_euclid x y ∧ rem_euclid x y ≤ |y| := by
  have habs := abs_lt.mp (remTrunc_abs_lt x y hy)
  unfold rem_euclid
  split_ifs with h
  · exact ⟨by linarith [habs.1], by linarith⟩
  · exact ⟨le_of_not_lt h, le_of_lt habs.2⟩

/-- C1: on the tokens of `sin(1+1)` the parser applies `sin` only to the
first primary expression after the opening parenthesis — the function
argument is parsed with minimum binding power 35, which no infix operator
exceeds — so the result is `sin 1 + 1` (with the group-closing parenthesis
left unconsumed), and never `sin 2` when those two values differ. -/
theorem parse_sin_one_plus_one (fev : FuncKind → ℚ → ℚ) :
    parse fev [.Func .Sin, .LParen, .Number 1, .Op .Plus, .Number 1, .RParen] 0
        = .ok (fev .Sin 1 + 1, [.RParen])
      ∧ (fev .Sin 1 + 1 ≠ fev .Sin 2 →
        parse fev [.Func .Sin, .LParen, .Number 1, .Op .Plus, .Number 1, .RParen] 0
          ≠ .ok (fev .Sin 2, [.RParen])) := by
  have h : parse fev [.Func .Sin, .LParen, .Number 1, .Op .Plus, .Number 1, .RParen] 0
      = .ok (fev .Sin 1 + 1, [.RParen]) := by
    norm_num +decide [parse, parseF, parseLoopF, applyOp, OpKind.bp, FuncKind.bp]
  refine ⟨h, fun hne hcontra => hne ?_⟩
  rw [h] at hcontra
  simpa using hcontra

/-- Witness for C1 at the evaluator that is zero everywhere, for which
`sin 1 + 1 = 1` and `sin 2 = 0` differ. -/
theorem parse_sin_one_plus_one_witness :
    parse zeroEval [.Func .Sin, .LParen, .Number 1, .Op .Plus, .Number 1, .RParen] 0
      ≠ .ok (zeroEval .Sin 2, [.RParen]) :=
  (parse_sin_one_plus_one zeroEval).2 (by simp [zeroEval])

/-- C2: the parser never consumes the closing parenthesis that terminates a
function application: on the tokens of `sin(0)+1` it returns `Ok 0` (given
that the evaluator sends `sin 0` to 0, as `f64::sin` does) and leaves the
closing parenthesis, `+` and `1` unconsumed. -/
theorem parse_sin_zero_plus_one (fev : FuncKind → ℚ → ℚ) (h0 : fev .Sin 0 = 0) :
    parse fev [.Func .Sin, .LParen, .Number 0, .RParen, .Op .Plus, .Number 1] 0
      = .ok (0, [.RParen, .Op .Plus, .Number 1]) := by
  norm_num +decide [parse, parseF, parseLoopF, applyOp, OpKind.bp, FuncKind.bp, h0]

/-- Witness for C2 at the evaluator that is zero everywhere. -/
theorem parse_sin_zero_plus_one_witness :
    parse zeroEval [.Func .Sin, .LParen, .Number 0, .RParen, .Op .Plus, .Number 1] 0
      = .ok (0, [.RParen, .Op .Plus, .Number 1]) :=
  parse_sin_zero_plus_one zeroEval rfl

/-- C3, counterexample: the claim that the Modulo result carries the sign of
the divisor fails at `lhs = -7`, `rhs = -3`: `rem_euclid` (and the parser on
the tokens of `-7 % -3`) produces `2`, which is not negative or zero. -/
theorem rem_euclid_not_divisor_sign :
    rem_euclid (-7) (-3) = 2
      ∧ ¬ rem_euclid (-7) (-3) ≤ 0
      ∧ parse zeroEval [.Op .Minus, .Number 7, .Op .Modulo, .Op .Minus, .Number 3] 0
          = .ok (2, []) := by
  have h : rem_euclid (-7) (-3) = 2 := by
    norm_num [rem_euclid, remTrunc, qtrunc, Int.ceil_neg]
  refine ⟨h, by rw [h]; norm_num, ?_⟩
  norm_num +decide [parse, parseF, parseLoopF, applyOp, rem_euclid, remTrunc, qtrunc,
    OpKind.bp, Int.ceil_neg]

/-- C3, amended: the infix Modulo operator combines its operands as the
source's Euclidean-remainder computation — the truncated remainder plus
`|rhs|` when that remainder is negative — and for every nonzero divisor the
result is non-negative and at most `|rhs|`: it never carries the sign of a
negative divisor.  (The strict bound and an exact congruence hold of this
exact-arithmetic model but are not claimed for general operands, since the
source's final addition rounds and can return exactly `|rhs|`.) -/
theorem rem_euclid_is_euclidean (lhs rhs : ℚ) (hy : rhs ≠ 0) :
    0 ≤ rem_euclid lhs rhs ∧ rem_euclid lhs rhs ≤ |rhs| :=
  rem_euclid_nonneg_le lhs rhs hy

/-- Witness for the amended C3 at `lhs = -7`, `rhs = 3`. -/
theorem rem_euclid_is_euclidean_witness :
    0 ≤ rem_euclid (-7) 3 ∧ rem_euclid (-7) 3 ≤ |(3 : ℚ)| :=
  rem_euclid_is_euclidean (-7) 3 (by simp)

/-- C4: consuming a postfix Factorial raises a fatal domain error exactly when
the current `lhs` is negative or has a nonzero fractional part, and otherwise
replaces `lhs` by the unsigned-64-bit factorial cast back to a number: the
tokens of `5!` evaluate to `120`, while those of `(-1)!` and `2.5!` fail with
the respective domain errors. -/
theorem parse_factorial_domain :
    (∀ (fev : FuncKind → ℚ → ℚ) (n : ℚ),
      parse fev [.Number n, .Op .Factorial] 0 =
        if n < 0 then .error "cannot calculate factorial of negative numbers"
        else if fract n ≠ 0 then .error "cannot calculate factorial of non integers"
        else .ok ((ufactorial (toU64 n) : ℚ), []))
    ∧ parse zeroEval [.Number 5, .Op .Factorial] 0 = .ok (120, [])
    ∧ parse zeroEval [.LParen, .Op .Minus, .Number 1, .RParen, .Op .Factorial] 0
        = .error "cannot calculate factorial of negative numbers"
    ∧ parse zeroEval [.Number (5/2), .Op .Factorial] 0
        = .error "cannot calculate factorial of non integers" := by
  refine ⟨fun fev n => ?_, ?_, ?_, ?_⟩
  · norm_num +decide [parse, parseF, parseLoopF, OpKind.bp]
  · norm_num +decide [parse, parseF, parseLoopF, fract, qtrunc, toU64_five,
      ufactorial_five, OpKind.bp]
  · norm_num +decide [parse, parseF, parseLoopF, applyOp, OpKind.bp]
  · norm_num +decide [parse, parseF, parseLoopF, fract, qtrunc, OpKind.bp]

/-- C5: Caret is right-associative — the right-hand side is parsed with the
operator binding power minus one — so the tokens of `2 ^ 3 ^ 2` group as
`2 ^ (3 ^ 2)` and evaluate to `512`, whereas the left grouping would give
`powf (powf 2 3) 2 = 64`. -/
theorem parse_caret_right_assoc (fev : FuncKind → ℚ → ℚ) :
    parse fev [.Number 2, .Op .Caret, .Number 3, .Op .Caret, .Number 2] 0
        = .ok (512, [])
      ∧ powf (powf 2 3) 2 = 64 := by
  constructor
  · norm_num +decide [parse, parseF, parseLoopF, applyOp, powf, OpKind.bp]
  · norm_num [powf]

/-- C6: the tokens of `-7 % 3` evaluate to exactly `2`: the leading Minus is
a unary prefix parsed with minimum binding power `5 + 15 = 20`, which
Modulo's binding power 15 does not exceed, so negation applies to `7` alone
and the Euclidean remainder of `-7` and `3` is the non-negative `2`. -/
theorem parse_neg_seven_mod_three (fev : FuncKind → ℚ → ℚ) :
    parse fev [.Op .Minus, .Number 7, .Op .Modulo, .Number 3] 0 = .ok (2, []) := by
  norm_num +decide [parse, parseF, parseLoopF, applyOp, rem_euclid, remTrunc, qtrunc,
    OpKind.bp, Int.ceil_neg]

/-- C7: excess closing parentheses are silently accepted: on the tokens of
`(2+3))) * 4` the parser returns `Ok 5`, the loop stopping at the first
unmatched closing parenthesis and leaving it and everything after it
unconsumed. -/
theorem parse_excess_rparens (fev : FuncKind → ℚ → ℚ) :
    parse fev [.LParen, .Number 2, .Op .Plus, .Number 3, .RParen, .RParen, .RParen,
        .Op .Star, .Number 4] 0
      = .ok (5, [.RParen, .RParen, .Op .Star, .Number 4]) := by
  norm_num +decide [parse, parseF, parseLoopF, applyOp, OpKind.bp]

/-- C8: Star's binding power 10 strictly exceeds Plus's 5, so the tokens of
`2 + 2 * 3` evaluate to `8`: the multiplication is performed inside the
recursive right-hand-side call before the addition combines. -/
theorem parse_two_plus_two_times_three (fev : FuncKind → ℚ → ℚ) :
    parse fev [.Number 2, .Op .Plus, .Number 2, .Op .Star, .Number 3] 0
      = .ok (8, []) := by
  norm_num +decide [parse, parseF, parseLoopF, applyOp, OpKind.bp]

/-- C10: an opening parenthesis whose group reaches the end of the input
without a matching close fails with the unmatched-delimiter error: after the
recursive call for the group returns, the next token must be a closing
parenthesis, and the end of input triggers the fatal error instead. -/
theorem parse_unclosed_paren (fev : FuncKind → ℚ → ℚ) :
    parse fev [.LParen, .Number 2, .Op .Plus, .Number 3] 0
      = .error "unmatched delimeter (" := by
  norm_num +decide [parse, parseF, parseLoopF, applyOp, OpKind.bp]

end ParserClaims

section Lexer

/-- ASCII whitespace per Rust `char::is_ascii_whitespace`: space, horizontal
tab, line feed, form feed, carriage return. -/
def isAsciiWhitespace (c : Char) : Bool :=
  c = ' ' || c = '\t' || c = '\n' || c = '\x0c' || c = '\r'

/-- Single-character operator/paren table (`lex_op` in `src/lexer.rs`); any
character outside the table is a fatal error naming that character. -/
def lex_op (c : Char) : Except String Token :=
  if c = '+' then .ok (.Op .Plus)
  else if c = '-' then .ok (.Op .Minus)
  else if c = '*' then .ok (.Op .Star)
  else if c = '/' then .ok (.Op .Slash)
  else if c = '^' then .ok (.Op .Caret)
  else if c = '%' then .ok (.Op .Modulo)
  else if c = '!' then .ok (.Op .Factorial)
  else if c = '(' then .ok .LParen
  else if c = ')' then .ok .RParen
  else .error ("unrecognized character " ++ String.singleton c)

/-- The digit-consuming loop of `lex_number` in `src/lexer.rs`: `dot`
records whether a decimal point was already seen, `buf` accumulates the
number's text; stops before the first character that is neither an ASCII
digit nor a point, and fails on a second point. -/
def lexNumberLoop : List Char → Bool → List Char → Except String (List Char × List Char)
  | [], _, buf => .ok (buf, [])
  | c :: rest, dot, buf =>
    if c.isDigit || c = '.' then
      if c = '.' then
        if dot then .error "number cannot contain more than one decimal point"
        else lexNumberLoop rest true (buf ++ [c])
      else lexNumberLoop rest dot (buf ++ [c])
    else .ok (buf, c :: rest)

/-- Value of a run of ASCII digits. -/
def digitsVal (ds : List Char) : Nat :=
  ds.foldl (fun a c => 10 * a + (c.toNat - 48)) 0

/-- The call `buf.parse::<f64>()` in `lex_number`, exact over `ℚ`: accepts a
run of digits containing at least one digit and at most one decimal point
(every buffer the lexer builds has this shape) and returns the integer part
plus the decimal fraction; anything else fails as Rust float parsing would. -/
def parse_f64 (cs : List Char) : Option ℚ :=
  if (cs.all fun c => c.isDigit || c = '.') ∧ cs.count '.' ≤ 1 ∧ (cs.any fun c => c.isDigit) then
    some ((digitsVal (cs.takeWhile fun c => c ≠ '.') : ℚ) +
      (digitsVal ((cs.dropWhile fun c => c ≠ '.').drop 1) : ℚ) /
        (10 : ℚ) ^ ((cs.dropWhile fun c => c ≠ '.').drop 1).length)
  else none

/-- Initial buffer of `lex_number`: a `0` is inserted when the number being
parsed is a decimal beginning with a point. -/
def numBufInit (cs : List Char) : List Char :=
  match cs with
  | c :: _ => if c = '.' then ['0'] else []
  | [] => []

/-- `lex_number` in `src/lexer.rs`: prepend `0` to the buffer when the
number starts with a decimal point, run the digit loop, and parse the
accumulated buffer into a number token. -/
def lex_number (cs : List Char) : Except String (Token × List Char) :=
  match lexNumberLoop cs false (numBufInit cs) with
  | .error e => .error e
  | .ok (buf, rest) =>
    match parse_f64 buf with
    | some q => .ok (.Number q, rest)
    | none => .error "invalid float literal"

/-- The letter-consuming loop of `lex_ident` in `src/lexer.rs`. -/
def lexIdentLoop : List Char → List Char → List Char × List Char
  | [], buf => (buf, [])
  | c :: rest, buf =>
    if c.isAlpha then lexIdentLoop rest (buf ++ [c]) else (buf, c :: rest)

/-- The exact `ℚ` value of the `f64` constant `std::f64::consts::PI`. -/
def pi_f64 : ℚ :=
  884279719003555 / 281474976710656

/-- The fixed keyword table of `lex_ident` in `src/lexer.rs`: function
names, plus the constant `pi` which resolves directly to a number token; any
other identifier is a fatal error naming the text. -/
def keywordToken (s : String) : Except String Token :=
  if s = "sin" then .ok (.Func .Sin)
  else if s = "cos" then .ok (.Func .Cos)
  else if s = "tan" then .ok (.Func .Tan)
  else if s = "asin" then .ok (.Func .Asin)
  else if s = "acos" then .ok (.Func .Acos)
  else if s = "atan" then .ok (.Func .Atan)
  else if s = "deg" then .ok (.Func .Deg)
  else if s = "rad" then .ok (.Func .Rad)
  else if s = "exp" then .ok (.Func .Exp)
  else if s = "ln" then .ok (.Func .Ln)
  else if s = "log" then .ok (.Func .Log)
  else if s = "sqrt" then .ok (.Func .Sqrt)
  else if s = "pi" then .ok (.Number pi_f64)
  else .error ("unrecognized identifier " ++ s)

/-- `lex_ident` in `src/lexer.rs`: consume a maximal run of ASCII letters
and resolve the accumulated text against the keyword table. -/
def lex_ident (cs : List Char) : Except String (Token × List Char) :=
  match lexIdentLoop cs [] with
  | (buf, rest) =>
    match keywordToken (String.mk buf) with
    | .ok t => .ok (t, rest)
    | .error e => .error e

/-- Main lexer loop (`lex` in `src/lexer.rs`): skip ASCII whitespace, hand
digit/point runs to `lex_number`, letter runs to `lex_ident`, and every
other character to the single-character table `lex_op`; any sub-lexer error
aborts the whole tokenization.  Fuel bounds the recursion; `length + 1`
suffices since every iteration consumes at least one character. -/
def lexGo (fuel : Nat) (cs : List Char) : Except String (List Token) :=
  if h : fuel = 0 then .error "fuel exhausted" else
    match cs with
    | [] => .ok []
    | c :: rest =>
      if isAsciiWhitespace c then lexGo (fuel - 1) rest
      else if c.isDigit || c = '.' then
        match lex_number (c :: rest) with
        | .error e => .error e
        | .ok (t, rest2) =>
          match lexGo (fuel - 1) rest2 with
          | .error e => .error e
          | .ok ts => .ok (t :: ts)
      else if c.isAlpha then
        match lex_ident (c :: rest) with
        | .error e => .error e
        | .ok (t, rest2) =>
          match lexGo (fuel - 1) rest2 with
          | .error e => .error e
          | .ok ts => .ok (t :: ts)
      else
        match lex_op c with
        | .error e => .error e
        | .ok t =>
          match lexGo (fuel - 1) rest with
          | .error e => .error e
          | .ok ts => .ok (t :: ts)
termination_by fuel
decreasing_by all_goals omega

/-- Entry point corresponding to `lex(&mut chars)`. -/
def lex (cs : List Char) : Except String (List Token) :=
  lexGo (cs.length + 1) cs

/-- The character classes the lexer understands: ASCII whitespace, ASCII
digits and the decimal point, ASCII letters, and the nine operator/paren
characters. -/
def goodChar (c : Char) : Bool :=
  isAsciiWhitespace c || c.isDigit || c = '.' || c.isAlpha ||
    ['+', '-', '*', '/', '^', '%', '!', '(', ')'].contains c

end Lexer

section LexerClaims

/-- Helper: characters accepted by the number lexer are good characters. -/
lemma goodChar_of_digit_dot {c : Char} (h : (c.isDigit || c = '.') = true) :
    goodChar c = true := by
  rcases Bool.or_eq_true_iff.mp h with h1 | h1 <;> simp [goodChar, h1]

lemma goodChar_of_alpha {c : Char} (h : c.isAlpha = true) : goodChar c = true := by
  simp [goodChar, h]

lemma goodChar_of_ws {c : Char} (h : isAsciiWhitespace c = true) : goodChar c = true := by
  simp [goodChar, h]

lemma lexNumberLoop_chars :
    ∀ (cs : List Char) (dot : Bool) (buf b r : List Char),
      lexNumberLoop cs dot buf = .ok (b, r) →
      (∀ c ∈ r, goodChar c = true) → ∀ c ∈ cs, goodChar c = true := by
  intro cs
  induction cs with
  | nil => intro dot buf b r h hr c hc; simp at hc
  | cons c0 rest ih =>
    intro dot buf b r h hr c hc
    simp only [lexNumberLoop] at h
    by_cases h1 : (c0.isDigit || c0 = '.') = true
    · rw [if_pos h1] at h
      rcases List.mem_cons.mp hc with rfl | hc2
      · exact goodChar_of_digit_dot h1
      · by_cases h2 : c0 = '.'
        · rw [if_pos h2] at h
          cases dot with
          | true => simp at h
          | false => exact ih true (buf ++ [c0]) b r h hr c hc2
        · rw [if_neg h2] at h
          exact ih dot (buf ++ [c0]) b r h hr c hc2
    · rw [if_neg h1] at h
      have : r = c0 :: rest := by
        injection h with h3
        exact (Prod.mk.injEq _ _ _ _).mp h3 |>.2.symm
      exact hr c (this ▸ hc)

lemma lexIdentLoop_chars :
    ∀ (cs buf b r : List Char),
      lexIdentLoop cs buf = (b, r) →
      (∀ c ∈ r, goodChar c = true) → ∀ c ∈ cs, goodChar c = true := by
  intro cs
  induction cs with
  | nil => intro buf b r h hr c hc; simp at hc
  | cons c0 rest ih =>
    intro buf b r h hr c hc
    simp only [lexIdentLoop] at h
    by_cases h1 : c0.isAlpha = true
    · rw [if_pos h1] at h
      rcases List.mem_cons.mp hc with rfl | hc2
      · exact goodChar_of_alpha h1
      · exact ih (buf ++ [c0]) b r h hr c hc2
    · rw [if_neg h1] at h
      have : r = c0 :: rest := ((Prod.mk.injEq _ _ _ _).mp h).2.symm
      exact hr c (this ▸ hc)

lemma lex_number_chars (cs : List Char) (t : Token) (r : List Char)
    (h : lex_number cs = .ok (t, r)) (hr : ∀ c ∈ r, goodChar c = true) :
    ∀ c ∈ cs, goodChar c = true := by
  unfold lex_number at h
  cases heq : lexNumberLoop cs false (numBufInit cs) with
  | error e => simp [heq] at h
  | ok p =>
    obtain ⟨buf, rest⟩ := p
    simp only [heq] at h
    cases hp : parse_f64 buf with
    | none => simp [hp] at h
    | some q =>
      simp only [hp] at h
      have hrr : r = rest := by
        injection h with h3
        exact ((Prod.mk.injEq _ _ _ _).mp h3).2.symm
      rw [hrr] at hr
      exact lexNumberLoop_chars cs false _ buf rest heq hr

lemma lex_ident_chars (cs : List Char) (t : Token) (r : List Char)
    (h : lex_ident cs = .ok (t, r)) (hr : ∀ c ∈ r, goodChar c = true) :
    ∀ c ∈ cs, goodChar c = true := by
  unfold lex_ident at h
  rcases heq : lexIdentLoop cs [] with ⟨buf, rest⟩
  simp only [heq] at h
  cases hk : keywordToken (String.mk buf) with
  | error e => simp [hk] at h
  | ok t2 =>
    simp only [hk] at h
    have hrr : r = rest := by
      injection h with h3
      exact ((Prod.mk.injEq _ _ _ _).mp h3).2.symm
    rw [hrr] at hr
    exact lexIdentLoop_chars cs [] buf rest heq hr

lemma lex_op_good (c : Char) (t : Token) (h : lex_op c = .ok t) : goodChar c = true := by
  unfold lex_op at h
  split_ifs at h with h1 h2 h3 h4 h5 h6 h7 h8 h9 <;>
    first
      | (subst_vars; decide)
      | simp at h

lemma lexGo_good :
    ∀ (fuel : Nat) (cs : List Char) (ts : List Token),
      lexGo fuel cs = .ok ts → ∀ c ∈ cs, goodChar c = true := by
  intro fuel
  induction fuel with
  | zero => intro cs ts h; rw [lexGo.eq_def] at h; simp at h
  | succ n ih =>
    intro cs ts h c hc
    rw [lexGo.eq_def, dif_neg (Nat.succ_ne_zero n)] at h
    cases cs with
    | nil => simp at hc
    | cons c0 rest =>
      simp only [Nat.add_sub_cancel] at h
      by_cases hws : isAsciiWhitespace c0 = true
      · rw [if_pos hws] at h
        rcases List.mem_cons.mp hc with rfl | hc2
        · exact goodChar_of_ws hws
        · exact ih rest ts h c hc2
      · rw [if_neg hws] at h
        by_cases hnum : (c0.isDigit || c0 = '.') = true
        · rw [if_pos hnum] at h
          cases hn : lex_number (c0 :: rest) with
          | error e => simp [hn] at h
          | ok p =>
            obtain ⟨t, rest2⟩ := p
            simp only [hn] at h
            cases hg : lexGo n rest2 with
            | error e => simp [hg] at h
            | ok ts2 =>
              exact lex_number_chars (c0 :: rest) t rest2 hn (ih rest2 ts2 hg) c hc
        · rw [if_neg hnum] at h
          by_cases hal : c0.isAlpha = true
          · rw [if_pos hal] at h
            cases hn : lex_ident (c0 :: rest) with
            | error e => simp [hn] at h
            | ok p =>
              obtain ⟨t, rest2⟩ := p
              simp only [hn] at h
              cases hg : lexGo n rest2 with
              | error e => simp [hg] at h
              | ok ts2 =>
                exact lex_ident_chars (c0 :: rest) t rest2 hn (ih rest2 ts2 hg) c hc
          · rw [if_neg hal] at h
            cases ho : lex_op c0 with
            | error e => simp [ho] at h
            | ok t =>
              simp only [ho] at h
              cases hg : lexGo n rest with
              | error e => simp [hg] at h
              | ok ts2 =>
                rcases List.mem_cons.mp hc with rfl | hc2
                · exact lex_op_good c t ho
                · exact ih rest ts2 hg c hc2



/-- C9: the lexer fails on every character that is not ASCII whitespace, not
an ASCII digit or point, not an ASCII letter, and not one of the nine
operator/paren characters: tokenizing `2 & 3` fails with an
unrecognized-character error naming the offending character, the
single-character table errors on every such character naming it, and no
token list is ever returned for an input containing one (never silently
dropped). -/
theorem lex_unrecognized_char :
    lex ['2', ' ', '&', ' ', '3']
        = .error ("unrecognized character " ++ String.singleton '&')
      ∧ (∀ c : Char, goodChar c = false →
          lex_op c = .error ("unrecognized character " ++ String.singleton c))
      ∧ (∀ (cs : List Char) (ts : List Token),
          lex cs = .ok ts → ∀ c ∈ cs, goodChar c = true) := by
  refine ⟨?_, ?_, ?_⟩
  · norm_num +decide [lex, lexGo, lex_number, lexNumberLoop, numBufInit, parse_f64,
      digitsVal, lex_op, isAsciiWhitespace]
  · intro c hbad
    unfold lex_op
    split_ifs with h1 h2 h3 h4 h5 h6 h7 h8 h9 <;>
      first
        | rfl
        | (subst_vars; exact absurd hbad (by decide))
  · intro cs ts h
    unfold lex at h
    exact lexGo_good (cs.length + 1) cs ts h

/-- Witness for C9: instantiating the no-ok conjunct at the input consisting
of a lone plus sign, and the table conjunct at the ampersand. -/
theorem lex_unrecognized_char_witness :
    goodChar '+' = true
      ∧ lex_op '&' = .error ("unrecognized character " ++ String.singleton '&') :=
  ⟨lex_unrecognized_char.2.2 ['+'] [.Op .Plus]
      (by simp +decide [lex, lexGo, lex_op, isAsciiWhitespace]) '+' (by simp),
   lex_unrecognized_char.2.1 '&' (by decide)⟩

end LexerClaims

end Cocoa
